import Mathlib

/-!
Verification development for the KitaTourAja trip-itinerary tracker
(src/src/App.tsx, src/src/lib/supabase.ts).

The itinerary core is shallowly embedded: React state updates become
explicit state passing on `AppState`, side effects (localStorage writes,
remote Supabase calls, console logging) become an explicit `Effect`
trace, and the outcome of each asynchronous remote call is passed in as
an explicit parameter (`RemoteResult`, `FetchResult`, `AiCall`).

The function `parseISO` from the date-fns library is treated as an
opaque parameter `String → Int` mapping an ISO date-time string to its
timestamp; `compareAsc a b` in the source compares exactly these
timestamps, so the sort comparator of the source becomes the relation
`stopLE parseISO`.  `Array.prototype.sort` is stable (ES2019), and with
a `≤`-style comparator its output is the unique stable sort, which is
what `List.insertionSort` computes; the stability of the model is
proved below (`stopsSort_filter_key`).
-/

namespace KitaTour

/-- Status of a stop: the string union `planned | visited | skipped`
from the source (field `status` of `Stop`, src/src/App.tsx). -/
inductive Status
  | planned
  | visited
  | skipped
deriving DecidableEq, Repr

/-- A stop record, as constructed in `addStop` (src/src/App.tsx lines
117-134): `id`, `title`, `address`, `dateTime` (the string
`date ++ "T" ++ time`), `notes`, `cost` (a number; rows loaded from the
remote store may lack it, hence `Option`, and the source reads it as
`stop.cost || 0`), `status`, `order`. -/
structure Stop where
  id : String
  title : String
  address : String
  dateTime : String
  notes : String
  cost : Option Nat
  status : Status
  order : Nat
deriving DecidableEq, Repr

/-- The mutable application state relevant to the itinerary store: the
in-memory `stops` React state and the contents of the localStorage key
`kitatour_stops` (`none` when the key is absent), parsed as a stop
collection (JSON round-tripping is assumed faithful). -/
structure AppState where
  stops : List Stop
  cache : Option (List Stop)
deriving DecidableEq, Repr

/-- Environment flags: `online` is `navigator.onLine` (the `isOnline`
React state), `configured` is whether `supabase` is non-null, i.e. both
environment variables are set (src/src/lib/supabase.ts). -/
structure Env where
  online : Bool
  configured : Bool
deriving DecidableEq, Repr

/-- Outcome of an attempted remote Supabase call: either it resolves
without error, or it fails (a rejected promise or a non-null `error`
field, which the source turns into a throw). -/
inductive RemoteResult
  | ok
  | fail
deriving DecidableEq, Repr

/-- Observable side effects of the itinerary store, in the order the
source performs them: a full overwrite of the localStorage collection
key, a remote batch upsert, a remote delete-by-id, and a
`console.error` log. -/
inductive Effect
  | setLocalCache (stops : List Stop)
  | remoteUpsert (stops : List Stop)
  | remoteDelete (id : String)
  | logError (msg : String)
deriving DecidableEq, Repr

/-- The fields read from the add form by `addStop` via `FormData`:
`title`, `address`, `date`, `time`, `notes`, and `cost` (the latter
already coerced by `Number(formData.get('cost')) || 0`). -/
structure FormInput where
  title : String
  address : String
  date : String
  time : String
  notes : String
  cost : Nat
deriving DecidableEq, Repr

/-- The sort relation used throughout the source:
`compareAsc(parseISO(a.dateTime), parseISO(b.dateTime))` keeps `a`
before `b` exactly when the timestamp of `a` is at most that of `b`. -/
def stopLE (parseISO : String → Int) (a b : Stop) : Prop :=
  parseISO a.dateTime ≤ parseISO b.dateTime

instance (parseISO : String → Int) : DecidableRel (stopLE parseISO) :=
  fun a b => Int.decLe _ _

instance (parseISO : String → Int) : IsTotal Stop (stopLE parseISO) :=
  ⟨fun a b => Int.le_total _ _⟩

instance (parseISO : String → Int) : IsTrans Stop (stopLE parseISO) :=
  ⟨fun _ _ _ hab hbc => le_trans hab hbc⟩

/-- The stable ascending-by-`dateTime` sort
`[...stops].sort((a, b) => compareAsc(parseISO(a.dateTime), parseISO(b.dateTime)))`
of the source, modelled by the stable `List.insertionSort`. -/
def stopsSort (parseISO : String → Int) (l : List Stop) : List Stop :=
  List.insertionSort (stopLE parseISO) l

/-- The remote batch upsert attempt of `syncData`
(`supabase.from('stops').upsert(updatedStops, { onConflict: 'id' })`,
followed by `if (error) throw error`), as a fallible call. -/
def remoteUpsertCall (updatedStops : List Stop) (res : RemoteResult) :
    Except String Unit :=
  match res with
  | .ok => .ok ()
  | .fail => .error "Supabase Sync Error"

/-- The remote delete attempt of `deleteStop`
(`supabase.from('stops').delete().eq('id', id)`), as a fallible call. -/
def remoteDeleteCall (id : String) (res : RemoteResult) :
    Except String Unit :=
  match res with
  | .ok => .ok ()
  | .fail => .error "Supabase Delete Error"

/-- `syncData` (src/src/App.tsx lines 96-115): always sets the
in-memory state and overwrites the localStorage key with the full
updated collection first; then, if online and configured, attempts the
remote batch upsert inside try/catch, where a failure is only logged.
The result is the new state together with the effect trace. -/
def syncData (env : Env) (updatedStops : List Stop) (res : RemoteResult) :
    AppState × List Effect :=
  let st1 : AppState := { stops := updatedStops, cache := some updatedStops }
  if env.online && env.configured then
    match remoteUpsertCall updatedStops res with
    | .ok _ =>
        (st1, [Effect.setLocalCache updatedStops,
               Effect.remoteUpsert updatedStops])
    | .error e =>
        (st1, [Effect.setLocalCache updatedStops,
               Effect.remoteUpsert updatedStops,
               Effect.logError e])
  else
    (st1, [Effect.setLocalCache updatedStops])

/-- The stop constructed by `addStop` from the form data: fresh id
(`crypto.randomUUID()`, passed in as `newId`), `dateTime` =
date + "T" + time, status `planned`, `order` = current collection
size. -/
def newStopOfInput (newId : String) (input : FormInput) (st : AppState) : Stop :=
  { id := newId
    title := input.title
    address := input.address
    dateTime := input.date ++ "T" ++ input.time
    notes := input.notes
    cost := some input.cost
    status := Status.planned
    order := st.stops.length }

/-- The updated collection computed by `addStop`:
`[...stops, newStop].sort(...)`. -/
def addUpdated (parseISO : String → Int) (newId : String)
    (input : FormInput) (st : AppState) : List Stop :=
  stopsSort parseISO (st.stops ++ [newStopOfInput newId input st])

/-- `addStop` (src/src/App.tsx lines 117-134): appends the new stop,
re-sorts the whole collection ascending by `dateTime`, and persists via
`syncData`. -/
def addStop (parseISO : String → Int) (env : Env) (newId : String)
    (input : FormInput) (st : AppState) (res : RemoteResult) :
    AppState × List Effect :=
  syncData env (addUpdated parseISO newId input st) res

/-- Whether the browser lets the add form submit: the inputs `title`,
`address`, `date`, `time` all carry the `required` attribute
(src/src/App.tsx lines 786-828), so submission — and hence the
`addStop` handler — is blocked while any of them is empty. -/
def requiredFieldsFilled (input : FormInput) : Bool :=
  !(input.title == "") && !(input.address == "") &&
  !(input.date == "") && !(input.time == "")

/-- The complete add operation as exposed by the source: the form with
its `required`-attribute validation gate followed by the `addStop`
submit handler.  A submission with an empty required field never
reaches the handler, so the state is unchanged and no effect occurs. -/
def submitAddForm (parseISO : String → Int) (env : Env) (newId : String)
    (input : FormInput) (st : AppState) (res : RemoteResult) :
    AppState × List Effect :=
  if requiredFieldsFilled input then addStop parseISO env newId input st res
  else (st, [])

/-- The per-stop update function inside `toggleStatus` (src/src/App.tsx
lines 136-145): on an id match, the next status is
`forceStatus || (s.status === 'visited' ? 'planned' : 'visited')`
(every status literal is truthy, so `||` is modelled by `Option.getD`);
other stops are returned unchanged. -/
def toggleStop (id : String) (forceStatus : Option Status) (s : Stop) : Stop :=
  if s.id = id then
    { s with status :=
        forceStatus.getD (if s.status = Status.visited then Status.planned
                          else Status.visited) }
  else s

/-- `toggleStatus` (src/src/App.tsx lines 136-145): maps the per-stop
update over the collection and persists via `syncData`. -/
def toggleStatus (env : Env) (id : String) (forceStatus : Option Status)
    (st : AppState) (res : RemoteResult) : AppState × List Effect :=
  syncData env (st.stops.map (toggleStop id forceStatus)) res

/-- The updated collection computed by `deleteStop`:
`stops.filter(s => s.id !== id)`. -/
def delUpdated (id : String) (st : AppState) : List Stop :=
  st.stops.filter (fun s => !(s.id == id))

/-- `deleteStop` (src/src/App.tsx lines 147-159): sets state and
localStorage to the filtered collection, then, if online and
configured, attempts a targeted remote delete inside try/catch, where a
failure is only logged. -/
def deleteStop (env : Env) (id : String) (st : AppState)
    (res : RemoteResult) : AppState × List Effect :=
  let updated := delUpdated id st
  let st1 : AppState := { stops := updated, cache := some updated }
  if env.online && env.configured then
    match remoteDeleteCall id res with
    | .ok _ =>
        (st1, [Effect.setLocalCache updated, Effect.remoteDelete id])
    | .error e =>
        (st1, [Effect.setLocalCache updated, Effect.remoteDelete id,
               Effect.logError e])
  else
    (st1, [Effect.setLocalCache updated])

/-- Outcome of the startup remote fetch
(`supabase.from('stops').select('*').order('order', ...)`): `.error`
covers both a rejected promise and a non-null `error` field (which the
source throws); `.ok` carries the `data` field, which may in principle
be null (`Option`). -/
inductive FetchResult
  | ok (data : Option (List Stop))
  | err (msg : String)
deriving DecidableEq, Repr

/-- `loadData` (src/src/App.tsx lines 59-87): first loads the cached
collection from localStorage if present; then, if online and
configured, fetches the remote collection — on success with non-null
data the fetched collection replaces state and localStorage wholesale,
on any error the provisional cached state is kept and the error is only
logged. -/
def loadData (env : Env) (cached : Option (List Stop))
    (fetch : FetchResult) : AppState × List Effect :=
  let st0 : AppState := { stops := cached.getD [], cache := cached }
  if env.online && env.configured then
    match fetch with
    | .ok (some data) =>
        ({ stops := data, cache := some data }, [Effect.setLocalCache data])
    | .ok none => (st0, [])
    | .err e => (st0, [Effect.logError e])
  else
    (st0, [])

/-- The derived `sortedStops` (src/src/App.tsx line 161): the whole
collection sorted ascending by `dateTime`. -/
def sortedStops (parseISO : String → Int) (st : AppState) : List Stop :=
  stopsSort parseISO st.stops

/-- The derived `nextStop` (src/src/App.tsx line 162): the first stop
in sorted order whose status is `planned`. -/
def nextStop (parseISO : String → Int) (st : AppState) : Option Stop :=
  (sortedStops parseISO st).find? (fun s => decide (s.status = Status.planned))

/-- The derived `totalCost` (src/src/App.tsx line 165):
`stops.reduce((acc, stop) => acc + (stop.cost || 0), 0)`. -/
def totalCost (st : AppState) : Nat :=
  st.stops.foldl (fun acc s => acc + s.cost.getD 0) 0

/-- Folds a sequence of add submissions from a given state, threading a
counter used to generate the fresh ids; every remote attempt is taken
to succeed (the local collection does not depend on that outcome). -/
def applyAddsAux (parseISO : String → Int) (env : Env) :
    List FormInput → AppState → Nat → AppState
  | [], st, _ => st
  | input :: rest, st, n =>
      applyAddsAux parseISO env rest
        (addStop parseISO env (toString n) input st RemoteResult.ok).1 (n + 1)

/-- A sequence of `addStop` calls starting from the empty collection. -/
def applyAdds (parseISO : String → Int) (env : Env)
    (inputs : List FormInput) : AppState :=
  applyAddsAux parseISO env inputs { stops := [], cache := none } 0

/-- A JSON value, the result of `JSON.parse` on the generation-service
response text; the source stores and renders it without any shape
validation. -/
inductive Json
  | str (s : String)
  | num (n : Int)
  | bool (b : Bool)
  | null
  | arr (xs : List Json)
  | obj (fields : List (String × Json))

/-- ASCII lower-casing of one character, as `String.prototype.toLowerCase`
acts on the ASCII code points relevant to the keyword set of the
source. -/
def lowerChar (c : Char) : Char :=
  if 65 ≤ c.toNat ∧ c.toNat ≤ 90 then Char.ofNat (c.toNat + 32) else c

/-- The lowercased title `title.toLowerCase()` of the source, modelled
character-wise over the underlying character list. -/
def lowerString (s : String) : String :=
  String.mk (s.data.map lowerChar)

/-- Whether `pat` is an initial segment of `s`. -/
def beginsWith : List Char → List Char → Bool
  | _, [] => true
  | [], _ :: _ => false
  | a :: as, b :: bs => a == b && beginsWith as bs

/-- Whether `pat` occurs as a contiguous segment of `s`. -/
def containsSub (pat : List Char) : List Char → Bool
  | [] => beginsWith [] pat
  | a :: as => beginsWith (a :: as) pat || containsSub pat as

/-- The JS substring test `t.includes(pat)` used by `getSmartFallback`. -/
def strContains (t pat : String) : Bool :=
  containsSub pat.data t.data

/-- `getSmartFallback` (src/src/App.tsx lines 217-239): the
deterministic offline heuristic.  It lowercases the title, picks the
`tips`/`costs` pair by the first matching keyword category (beach, then
heritage/museum, then food), and returns the four-field object with the
fixed `weather` and `recommendations` strings. -/
def getSmartFallback (title : String) : Json :=
  let t := lowerString title
  let tc :=
    if strContains t "pantai" then
      ("Bawa sunblock, baju ganti, dan kacamata hitam.",
       "Biasanya ada biaya parkir & sewa payung.")
    else if strContains t "candi" || strContains t "museum" then
      ("Gunakan sepatu nyaman dan bawa topi.",
       "Siapkan biaya tiket masuk (biasanya Rp 20rb - 100rb).")
    else if strContains t "makan" || strContains t "resto" ||
            strContains t "kuliner" then
      ("Cek ulasan terbaru untuk menu andalan.",
       "Estimasi Rp 50rb - 150rb per orang.")
    else
      ("Siapkan peta offline dan air minum.",
       "Siapkan uang tunai untuk parkir/jajan.")
  Json.obj [("costs", Json.str tc.2),
            ("weather", Json.str "Cek langit secara manual (Mode Offline)"),
            ("recommendations",
             Json.str "Tanya warga lokal untuk spot terbaik."),
            ("tips", Json.str tc.1)]

/-- Outcome of the awaited `ai.models.generateContent` call: either the
promise rejects, or it resolves with a response whose `.text` may be
absent (`none`) or any string. -/
inductive AiCall
  | failure
  | success (text : Option String)

/-- The string handed to `JSON.parse` by the source:
`response.text || '{}'`, i.e. the literal `"\x7b\x7d"` when the text is
absent or empty. -/
def responseRaw (text : Option String) : String :=
  match text with
  | none => "\x7b\x7d"
  | some t => if t == "" then "\x7b\x7d" else t

/-- `fetchAiInsights` (src/src/App.tsx lines 168-215), with `JSON.parse`
passed in as an opaque partial parser `jsonParse` and the insight cache
(`localStorage` keys `ai_cache_<id>`, already parsed) as a lookup
function.  Returns the value handed to `setAiInsights` together with
the cache write performed, if any.  Resolution order: cache hit is
returned verbatim; otherwise offline yields the heuristic (not
cached); otherwise the online call is made — a rejected call or a
parse failure is caught and yields the heuristic (not cached), while
any successfully parsed value is returned and written to the cache
with no shape validation. -/
def fetchAiInsights (jsonParse : String → Option Json)
    (cache : String → Option Json) (online : Bool) (stop : Stop)
    (call : AiCall) : Json × Option (String × Json) :=
  let cacheKey := "ai_cache_" ++ stop.id
  match cache cacheKey with
  | some cachedVal => (cachedVal, none)
  | none =>
    if !online then (getSmartFallback stop.title, none)
    else
      match call with
      | .failure => (getSmartFallback stop.title, none)
      | .success text =>
        match jsonParse (responseRaw text) with
        | some data => (data, some (cacheKey, data))
        | none => (getSmartFallback stop.title, none)

/-! Concrete sample values used by the witness theorems. -/

/-- A concrete timestamp function standing in for `parseISO` in closed
witness statements (any `String → Int` is admissible there). -/
def parseLen : String → Int := fun s => (s.length : Int)

/-- Online and configured environment. -/
def envOn : Env := { online := true, configured := true }

/-- Offline, unconfigured environment. -/
def envOff : Env := { online := false, configured := false }

/-- A planned sample stop. -/
def exStopPlanned : Stop :=
  { id := "s0", title := "Candi Borobudur", address := "Magelang"
    dateTime := "2024-05-01T08:00", notes := "", cost := some 50000
    status := Status.planned, order := 0 }

/-- A skipped sample stop with a beach title. -/
def exStopSkipped : Stop :=
  { id := "s1", title := "Pantai Kuta", address := "Bali"
    dateTime := "2024-05-01T10:00", notes := "", cost := some 25000
    status := Status.skipped, order := 1 }

/-- A visited sample stop. -/
def exStopVisited : Stop :=
  { id := "s2", title := "Museum Nasional", address := "Jakarta"
    dateTime := "2024-05-01T13:00", notes := "", cost := some 15000
    status := Status.visited, order := 2 }

/-- A later planned sample stop (its date-time string is longer, so it
is strictly later under the sample timestamp function `parseLen`). -/
def exStopPlanned2 : Stop :=
  { id := "s3", title := "Warung Makan Sederhana", address := "Yogyakarta"
    dateTime := "2024-05-02T09:30:00", notes := "", cost := none
    status := Status.planned, order := 3 }

/-- A form input with an empty (required) title field. -/
def exEmptyTitleInput : FormInput :=
  { title := "", address := "Magelang", date := "2024-05-01"
    time := "08:00", notes := "", cost := 0 }

/-- A sample state holding the four sample stops. -/
def exState : AppState :=
  { stops := [exStopPlanned, exStopSkipped, exStopVisited, exStopPlanned2]
    cache := none }

/-- A parser recognising exactly the empty-object response text, used
to instantiate the opaque `JSON.parse` parameter in witnesses. -/
def jsonParseEmpty : String → Option Json :=
  fun s => if s == "\x7b\x7d" then some (Json.obj []) else none

/-- An empty insight cache. -/
def noCache : String → Option Json := fun _ => none

/-! Helper lemmas. -/

/-- The state component of `syncData` is the full updated collection in
memory and in the local cache, for every remote outcome. -/
theorem syncData_state (env : Env) (u : List Stop) (res : RemoteResult) :
    (syncData env u res).1 = { stops := u, cache := some u } := by
  cases res <;> simp only [syncData, remoteUpsertCall] <;> split <;> rfl

/-- The effect trace of `syncData` starts with the local-cache write of
the full updated collection, and everything after it is the remote
upsert or its error log. -/
theorem syncData_trace (env : Env) (u : List Stop) (res : RemoteResult) :
    ∃ rest, (syncData env u res).2 = Effect.setLocalCache u :: rest
      ∧ ∀ e ∈ rest, e = Effect.remoteUpsert u
          ∨ e = Effect.logError "Supabase Sync Error" := by
  cases res <;> simp only [syncData, remoteUpsertCall] <;> split
  · exact ⟨[Effect.remoteUpsert u], rfl, by simp⟩
  · exact ⟨[], rfl, by simp⟩
  · exact ⟨[Effect.remoteUpsert u, Effect.logError "Supabase Sync Error"],
      rfl, by simp⟩
  · exact ⟨[], rfl, by simp⟩

/-- Inserting a stop whose key equals `k` puts it in front of every
other key-`k` stop already present: the elements it is inserted after
all have a strictly smaller key. -/
theorem orderedInsert_filter_of_key_eq (parseISO : String → Int) (x : Stop)
    (k : Int) (hx : parseISO x.dateTime = k) (l : List Stop) :
    (List.orderedInsert (stopLE parseISO) x l).filter
        (fun s => decide (parseISO s.dateTime = k))
      = x :: l.filter (fun s => decide (parseISO s.dateTime = k)) := by
  induction l with
  | nil => simp [List.orderedInsert, hx]
  | cons y ys ih =>
    by_cases h : stopLE parseISO x y
    · simp [List.orderedInsert, h, List.filter_cons, hx]
    · have hy : ¬ parseISO y.dateTime = k := by
        intro hk
        simp only [stopLE] at h
        have hlt : parseISO y.dateTime < parseISO x.dateTime := lt_of_not_le h
        rw [hk, hx] at hlt
        exact lt_irrefl k hlt
      simp [List.orderedInsert, h, List.filter_cons, hy, ih]

/-- Inserting a stop whose key differs from `k` does not change the
key-`k` stops or their order. -/
theorem orderedInsert_filter_of_key_ne (parseISO : String → Int) (x : Stop)
    (k : Int) (hx : ¬ parseISO x.dateTime = k) (l : List Stop) :
    (List.orderedInsert (stopLE parseISO) x l).filter
        (fun s => decide (parseISO s.dateTime = k))
      = l.filter (fun s => decide (parseISO s.dateTime = k)) := by
  induction l with
  | nil => simp [List.orderedInsert, hx]
  | cons y ys ih =>
    by_cases h : stopLE parseISO x y
    · simp [List.orderedInsert, h, List.filter_cons, hx]
    · simp [List.orderedInsert, h, List.filter_cons, ih]

/-- Stability of the modelled sort: for every key `k`, the key-`k`
stops of the sorted list are exactly the key-`k` stops of the input in
their original relative order. -/
theorem stopsSort_filter_key (parseISO : String → Int) (k : Int)
    (l : List Stop) :
    (stopsSort parseISO l).filter (fun s => decide (parseISO s.dateTime = k))
      = l.filter (fun s => decide (parseISO s.dateTime = k)) := by
  induction l with
  | nil => rfl
  | cons x xs ih =>
    show (List.orderedInsert (stopLE parseISO) x
        (stopsSort parseISO xs)).filter _ = _
    by_cases hx : parseISO x.dateTime = k
    · rw [orderedInsert_filter_of_key_eq parseISO x k hx,
        List.filter_cons, ih]
      simp [hx]
    · rw [orderedInsert_filter_of_key_ne parseISO x k hx,
        List.filter_cons, ih]
      simp [hx]

/-- The modelled sort is sorted with respect to the timestamp
comparator. -/
theorem stopsSort_sorted (parseISO : String → Int) (l : List Stop) :
    List.Sorted (stopLE parseISO) (stopsSort parseISO l) :=
  List.sorted_insertionSort (stopLE parseISO) l

/-- The modelled sort is a permutation: membership is preserved. -/
theorem stopsSort_mem (parseISO : String → Int) (l : List Stop) (s : Stop) :
    s ∈ stopsSort parseISO l ↔ s ∈ l :=
  List.mem_insertionSort _

/-- In a list sorted by the timestamp comparator, the first element
satisfying a predicate has the least timestamp among all elements
satisfying it. -/
theorem find?_min_of_sorted (parseISO : String → Int)
    (pred : Stop → Bool) :
    ∀ l : List Stop, List.Sorted (stopLE parseISO) l →
      ∀ a, l.find? pred = some a →
      ∀ b ∈ l, pred b = true → parseISO a.dateTime ≤ parseISO b.dateTime := by
  intro l
  induction l with
  | nil => intro _ a ha; cases ha
  | cons x xs ih =>
    intro hs a ha b hb hpb
    rw [List.sorted_cons] at hs
    by_cases hpx : pred x = true
    · rw [List.find?_cons_of_pos _ hpx] at ha
      cases ha
      rcases List.mem_cons.mp hb with hb1 | hb1
      · rw [hb1]
      · exact hs.1 b hb1
    · rw [List.find?_cons_of_neg _ (by simp [hpx])] at ha
      rcases List.mem_cons.mp hb with hb1 | hb1
      · exact absurd hpb (by rw [hb1]; exact hpx)
      · exact ih hs.2 a ha b hb1 hpb

/-- The per-stop toggle never changes the `cost` field. -/
theorem toggleStop_cost (id : String) (force : Option Status) (s : Stop) :
    (toggleStop id force s).cost = s.cost := by
  unfold toggleStop
  split <;> rfl

/-- The fold of `totalCost` equals the accumulator plus the sum of the
per-stop costs. -/
theorem foldl_cost_eq_sum (l : List Stop) :
    ∀ n : Nat, l.foldl (fun acc s => acc + s.cost.getD 0) n
      = n + (l.map (fun s => s.cost.getD 0)).sum := by
  induction l with
  | nil => intro n; simp
  | cons x xs ih =>
    intro n
    simp only [List.foldl_cons, List.map_cons, List.sum_cons]
    rw [ih]
    omega

/-- The toggle map is the identity on a collection in which no stop
carries the toggled id. -/
theorem toggle_map_id_of_not_mem (id : String) (force : Option Status)
    (l : List Stop) (h : ∀ s ∈ l, ¬ s.id = id) :
    l.map (toggleStop id force) = l := by
  induction l with
  | nil => rfl
  | cons x xs ih =>
    simp only [List.map_cons]
    rw [ih (fun s hs => h s (List.mem_cons_of_mem x hs))]
    have hx : ¬ x.id = id := h x (List.mem_cons_self x xs)
    simp [toggleStop, hx]

/-- The local-cache write is always among the effects of `syncData`. -/
theorem syncData_local_write_mem (env : Env) (u : List Stop)
    (res : RemoteResult) :
    Effect.setLocalCache u ∈ (syncData env u res).2 := by
  obtain ⟨rest, heq, -⟩ := syncData_trace env u res
  rw [heq]
  exact List.mem_cons_self _ _

/-- When online and configured, `syncData` attempts the remote batch
upsert of the full collection, whatever the remote outcome. -/
theorem syncData_remote_attempt (env : Env) (u : List Stop)
    (res : RemoteResult) (hon : env.online = true)
    (hcfg : env.configured = true) :
    Effect.remoteUpsert u ∈ (syncData env u res).2 := by
  cases res <;> simp [syncData, remoteUpsertCall, hon, hcfg]

/-! Claim theorems. -/

/-- C1: the add operation as exposed by the source (the form with its
required-attribute gate followed by the `addStop` handler) rejects a
submission with an empty or absent `title`, `address`, or `dateTime`
(the latter built from the required `date` and `time` fields) before
any state mutation: the collection, the local cache, and the remote
store are all untouched, and the effect trace is empty. -/
theorem addForm_rejects_empty_required_field
    (parseISO : String → Int) (env : Env) (newId : String)
    (input : FormInput) (st : AppState) (res : RemoteResult)
    (h : input.title = "" ∨ input.address = ""
       ∨ input.date = "" ∨ input.time = "") :
    submitAddForm parseISO env newId input st res = (st, []) := by
  have hgate : requiredFieldsFilled input = false := by
    rcases h with h | h | h | h <;> simp [requiredFieldsFilled, h]
  simp [submitAddForm, hgate]

/-- C1 witness: a concrete submission with an empty title leaves the
concrete state untouched. -/
theorem addForm_rejects_empty_required_field_witness :
    (exEmptyTitleInput.title = "" ∨ exEmptyTitleInput.address = ""
       ∨ exEmptyTitleInput.date = "" ∨ exEmptyTitleInput.time = "")
    ∧ submitAddForm parseLen envOn "f1" exEmptyTitleInput exState
        RemoteResult.ok = (exState, []) :=
  ⟨Or.inl rfl,
   addForm_rejects_empty_required_field parseLen envOn "f1"
     exEmptyTitleInput exState RemoteResult.ok (Or.inl rfl)⟩

/-- C2 counterexample: a single `toggleStatus` invocation moves a
skipped stop directly to visited even with no explicit target, and an
explicit target moves a visited stop directly to skipped. -/
theorem toggle_direct_transition_counterexample :
    exStopSkipped.status = Status.skipped
    ∧ (toggleStatus envOff "s1" none
        { stops := [exStopSkipped], cache := none }
        RemoteResult.ok).1.stops.map Stop.status = [Status.visited]
    ∧ exStopVisited.status = Status.visited
    ∧ (toggleStatus envOff "s2" (some Status.skipped)
        { stops := [exStopVisited], cache := none }
        RemoteResult.ok).1.stops.map Stop.status = [Status.skipped] := by
  refine ⟨rfl, ?_, rfl, ?_⟩ <;> rfl

/-- C2 (amended): a `toggleStatus` invocation with no explicit target
never moves a visited stop to skipped (a matched visited stop flips to
planned), but it does move a matched skipped stop directly to visited,
and with an explicit target the matched stop is set to exactly that
target, so `visited → skipped` and `skipped → visited` are directly
reachable. -/
theorem toggle_no_target_visited_never_to_skipped
    (env : Env) (id : String) (st : AppState) (res : RemoteResult) :
    (toggleStatus env id none st res).1.stops
        = st.stops.map (toggleStop id none)
    ∧ (∀ s : Stop, s.status = Status.visited →
        ¬ (toggleStop id none s).status = Status.skipped)
    ∧ (∀ s : Stop, s.status = Status.visited → s.id = id →
        (toggleStop id none s).status = Status.planned)
    ∧ (∀ s : Stop, s.id = id → ¬ s.status = Status.visited →
        (toggleStop id none s).status = Status.visited)
    ∧ (∀ s : Stop, ∀ t : Status, s.id = id →
        (toggleStop id (some t) s).status = t) := by
  refine ⟨?_, ?_, ?_, ?_, ?_⟩
  · rw [show (toggleStatus env id none st res)
        = syncData env (st.stops.map (toggleStop id none)) res from rfl]
    rw [syncData_state]
  · intro s hs
    by_cases hid : s.id = id <;> simp [toggleStop, hid, hs]
  · intro s hs hid
    simp [toggleStop, hid, hs]
  · intro s hid hs
    simp [toggleStop, hid, hs]
  · intro s t hid
    simp [toggleStop, hid]

/-- C2 witness: the amended statement applied at a concrete visited
stop whose id is toggled. -/
theorem toggle_no_target_visited_never_to_skipped_witness :
    (toggleStatus envOn "s2" none { stops := [exStopVisited], cache := none }
        RemoteResult.ok).1.stops
      = [exStopVisited].map (toggleStop "s2" none)
    ∧ (toggleStop "s2" none exStopVisited).status = Status.planned :=
  ⟨(toggle_no_target_visited_never_to_skipped envOn "s2"
      { stops := [exStopVisited], cache := none } RemoteResult.ok).1,
   (toggle_no_target_visited_never_to_skipped envOn "s2"
      { stops := [exStopVisited], cache := none } RemoteResult.ok).2.2.1
      exStopVisited rfl rfl⟩

/-- C3: on every mutation (add, status change, delete) the local cache
is overwritten with the full updated collection as the first effect,
before any remote attempt; the resulting in-memory collection and
local cache are the same for every remote outcome (so a remote failure
rolls nothing back), every effect after the local write is the remote
attempt or its caught error log, and each operation is a total
function (no uncaught error reaches the caller). -/
theorem mutations_local_first_remote_failure_isolated
    (parseISO : String → Int) (env : Env) (res : RemoteResult) :
    (∀ newId input st, addStop parseISO env newId input st res
        = syncData env (addUpdated parseISO newId input st) res)
    ∧ (∀ id force st, toggleStatus env id force st res
        = syncData env (st.stops.map (toggleStop id force)) res)
    ∧ (∀ u, (syncData env u res).1 = { stops := u, cache := some u })
    ∧ (∀ u, ∃ rest, (syncData env u res).2 = Effect.setLocalCache u :: rest
        ∧ ∀ e ∈ rest, e = Effect.remoteUpsert u
            ∨ e = Effect.logError "Supabase Sync Error")
    ∧ (∀ id st, (deleteStop env id st res).1
        = { stops := delUpdated id st, cache := some (delUpdated id st) })
    ∧ (∀ id st, ∃ rest, (deleteStop env id st res).2
        = Effect.setLocalCache (delUpdated id st) :: rest
        ∧ ∀ e ∈ rest, e = Effect.remoteDelete id
            ∨ e = Effect.logError "Supabase Delete Error") := by
  refine ⟨fun _ _ _ => rfl, fun _ _ _ => rfl,
    fun u => syncData_state env u res, fun u => syncData_trace env u res,
    ?_, ?_⟩
  · intro id st
    cases res <;> simp only [deleteStop, remoteDeleteCall] <;> split <;> rfl
  · intro id st
    cases res <;> simp only [deleteStop, remoteDeleteCall] <;> split
    · exact ⟨[Effect.remoteDelete id], rfl, by simp⟩
    · exact ⟨[], rfl, by simp⟩
    · exact ⟨[Effect.remoteDelete id, Effect.logError "Supabase Delete Error"],
        rfl, by simp⟩
    · exact ⟨[], rfl, by simp⟩

/-- C3 witness: with a failing remote, a concrete delete still lands
the filtered collection in memory and in the local cache. -/
theorem mutations_local_first_remote_failure_isolated_witness :
    (deleteStop envOn "s1" exState RemoteResult.fail).1
      = { stops := delUpdated "s1" exState
          cache := some (delUpdated "s1" exState) } :=
  (mutations_local_first_remote_failure_isolated parseLen envOn
    RemoteResult.fail).2.2.2.2.1 "s1" exState

/-- C4: on startup load with the remote configured and online, a
successful fetch replaces the in-memory state and the local cache
wholesale with the fetched collection (no merge with the provisional
cached state, which does not appear in the result), while a failed
fetch retains the provisional local-cache state and produces only an
error log, never a blocking error. -/
theorem loadData_remote_wins_else_cache_retained
    (env : Env) (cached : Option (List Stop))
    (h : env.online = true ∧ env.configured = true) :
    (∀ data, loadData env cached (FetchResult.ok (some data))
        = ({ stops := data, cache := some data },
           [Effect.setLocalCache data]))
    ∧ (∀ e, loadData env cached (FetchResult.err e)
        = ({ stops := cached.getD [], cache := cached },
           [Effect.logError e])) := by
  constructor
  · intro data
    simp [loadData, h.1, h.2]
  · intro e
    simp [loadData, h.1, h.2]

/-- C4 witness: a concrete successful fetch overwrites a concrete
non-empty cached state, and a concrete failure retains it. -/
theorem loadData_remote_wins_else_cache_retained_witness :
    loadData envOn (some [exStopVisited])
        (FetchResult.ok (some [exStopPlanned]))
      = ({ stops := [exStopPlanned], cache := some [exStopPlanned] },
         [Effect.setLocalCache [exStopPlanned]])
    ∧ loadData envOn (some [exStopVisited]) (FetchResult.err "down")
      = ({ stops := [exStopVisited], cache := some [exStopVisited] },
         [Effect.logError "down"]) :=
  ⟨(loadData_remote_wins_else_cache_retained envOn (some [exStopVisited])
      ⟨rfl, rfl⟩).1 [exStopPlanned],
   (loadData_remote_wins_else_cache_retained envOn (some [exStopVisited])
      ⟨rfl, rfl⟩).2 "down"⟩

/-- C5: insight resolution follows the strict order of the source: a
cache entry keyed by the stop id is returned verbatim with no write;
with no cache entry, offline (or an online call failure) yields the
deterministic keyword heuristic on the lowercased title with no cache
write; a cache write happens only for a successfully parsed online
result; and a title containing "pantai" yields exactly the
beach-specific canned object, whose tips field is the beach tips
string. -/
theorem insight_cache_first_heuristic_never_cached
    (jsonParse : String → Option Json) (cache : String → Option Json)
    (online : Bool) (stop : Stop) (call : AiCall) :
    (∀ ins, cache ("ai_cache_" ++ stop.id) = some ins →
        fetchAiInsights jsonParse cache online stop call = (ins, none))
    ∧ (cache ("ai_cache_" ++ stop.id) = none → online = false →
        fetchAiInsights jsonParse cache online stop call
          = (getSmartFallback stop.title, none))
    ∧ (cache ("ai_cache_" ++ stop.id) = none →
        fetchAiInsights jsonParse cache online stop AiCall.failure
          = (getSmartFallback stop.title, none))
    ∧ (∀ w, (fetchAiInsights jsonParse cache online stop call).2 = some w →
        online = true ∧ ∃ text j, call = AiCall.success text
          ∧ jsonParse (responseRaw text) = some j
          ∧ w = ("ai_cache_" ++ stop.id, j))
    ∧ (∀ title, strContains (lowerString title) "pantai" = true →
        getSmartFallback title = Json.obj
          [("costs", Json.str "Biasanya ada biaya parkir & sewa payung."),
           ("weather", Json.str "Cek langit secara manual (Mode Offline)"),
           ("recommendations",
            Json.str "Tanya warga lokal untuk spot terbaik."),
           ("tips",
            Json.str "Bawa sunblock, baju ganti, dan kacamata hitam.")]) := by
  refine ⟨?_, ?_, ?_, ?_, ?_⟩
  · intro ins h
    simp [fetchAiInsights, h]
  · intro h hon
    simp [fetchAiInsights, h, hon]
  · intro h
    cases online <;> simp [fetchAiInsights, h]
  · intro w hw
    cases hcache : cache ("ai_cache_" ++ stop.id) with
    | some ins => simp [fetchAiInsights, hcache] at hw
    | none =>
      cases online with
      | false => simp [fetchAiInsights, hcache] at hw
      | true =>
        cases call with
        | failure => simp [fetchAiInsights, hcache] at hw
        | success text =>
          cases hp : jsonParse (responseRaw text) with
          | none => simp [fetchAiInsights, hcache, hp] at hw
          | some j =>
            have hred : fetchAiInsights jsonParse cache true stop
                (AiCall.success text)
                = (j, some ("ai_cache_" ++ stop.id, j)) := by
              simp [fetchAiInsights, hcache, hp]
            rw [hred] at hw
            injection hw with hw2
            subst hw2
            exact ⟨rfl, text, j, rfl, hp, rfl⟩
  · intro title h
    simp [getSmartFallback, h]

/-- C5 witness: offline resolution of a concrete "Pantai" stop with an
empty cache returns the heuristic with no cache write, and the
heuristic object for that title is exactly the beach-specific canned
object. -/
theorem insight_cache_first_heuristic_never_cached_witness :
    fetchAiInsights jsonParseEmpty noCache false exStopSkipped
        AiCall.failure = (getSmartFallback exStopSkipped.title, none)
    ∧ getSmartFallback "Pantai Kuta" = Json.obj
        [("costs", Json.str "Biasanya ada biaya parkir & sewa payung."),
         ("weather", Json.str "Cek langit secara manual (Mode Offline)"),
         ("recommendations",
          Json.str "Tanya warga lokal untuk spot terbaik."),
         ("tips",
          Json.str "Bawa sunblock, baju ganti, dan kacamata hitam.")] :=
  ⟨(insight_cache_first_heuristic_never_cached jsonParseEmpty noCache
      false exStopSkipped AiCall.failure).2.1 rfl rfl,
   (insight_cache_first_heuristic_never_cached jsonParseEmpty noCache
      false exStopSkipped AiCall.failure).2.2.2.2 "Pantai Kuta" (by decide)⟩

/-- C6: `toggleStatus` with an explicit target sets the matched stop to
exactly that target; with no target it flips a matched visited stop to
planned and any matched non-visited stop to visited; and when no stop
carries the given id the collection is unchanged while the persist
cycle still runs — the local-cache write always occurs and, when online
and configured, the remote batch upsert is still attempted — with no
error raised (the operation is total). -/
theorem setStatus_target_flip_and_notfound_persists
    (env : Env) (id : String) (st : AppState) (res : RemoteResult) :
    (∀ force, (toggleStatus env id force st res).1.stops
        = st.stops.map (toggleStop id force))
    ∧ (∀ s : Stop, ∀ t : Status, s.id = id →
        (toggleStop id (some t) s).status = t)
    ∧ (∀ s : Stop, s.id = id → s.status = Status.visited →
        (toggleStop id none s).status = Status.planned)
    ∧ (∀ s : Stop, s.id = id → ¬ s.status = Status.visited →
        (toggleStop id none s).status = Status.visited)
    ∧ (∀ force, (∀ s ∈ st.stops, ¬ s.id = id) →
        (toggleStatus env id force st res).1
            = { stops := st.stops, cache := some st.stops }
        ∧ Effect.setLocalCache st.stops
            ∈ (toggleStatus env id force st res).2
        ∧ (env.online = true → env.configured = true →
            Effect.remoteUpsert st.stops
              ∈ (toggleStatus env id force st res).2)) := by
  refine ⟨?_, ?_, ?_, ?_, ?_⟩
  · intro force
    rw [show toggleStatus env id force st res
        = syncData env (st.stops.map (toggleStop id force)) res from rfl,
      syncData_state]
  · intro s t hid
    simp [toggleStop, hid]
  · intro s hid hs
    simp [toggleStop, hid, hs]
  · intro s hid hs
    simp [toggleStop, hid, hs]
  · intro force h
    have hmap : st.stops.map (toggleStop id force) = st.stops :=
      toggle_map_id_of_not_mem id force st.stops h
    have heq : toggleStatus env id force st res
        = syncData env st.stops res := by
      rw [show toggleStatus env id force st res
          = syncData env (st.stops.map (toggleStop id force)) res from rfl,
        hmap]
    refine ⟨?_, ?_, ?_⟩
    · rw [heq, syncData_state]
    · rw [heq]
      exact syncData_local_write_mem env st.stops res
    · intro hon hcfg
      rw [heq]
      exact syncData_remote_attempt env st.stops res hon hcfg

/-- C6 witness: toggling an id absent from a concrete collection (while
online and configured) leaves the collection unchanged, writes it to
the local cache, and still attempts the remote upsert. -/
theorem setStatus_target_flip_and_notfound_persists_witness :
    (toggleStatus envOn "zz" none exState RemoteResult.ok).1
        = { stops := exState.stops, cache := some exState.stops }
    ∧ Effect.remoteUpsert exState.stops
        ∈ (toggleStatus envOn "zz" none exState RemoteResult.ok).2 :=
  ⟨((setStatus_target_flip_and_notfound_persists envOn "zz" exState
      RemoteResult.ok).2.2.2.2 none (by decide)).1,
   ((setStatus_target_flip_and_notfound_persists envOn "zz" exState
      RemoteResult.ok).2.2.2.2 none (by decide)).2.2 rfl rfl⟩

/-- C7: `nextStop` is the first planned stop of the stable sorted
order; when it is none, no stop of the collection is planned; when it
is some stop, that stop belongs to the collection, its status is
exactly planned (so never visited or skipped), and no planned stop of
the collection has a strictly earlier timestamp. -/
theorem nextStop_none_or_earliest_planned
    (parseISO : String → Int) (st : AppState) :
    nextStop parseISO st = (sortedStops parseISO st).find?
        (fun s => decide (s.status = Status.planned))
    ∧ (nextStop parseISO st = none →
        ∀ s ∈ st.stops, ¬ s.status = Status.planned)
    ∧ (∀ s, nextStop parseISO st = some s →
        s ∈ st.stops ∧ s.status = Status.planned
        ∧ ∀ b ∈ st.stops, b.status = Status.planned →
            parseISO s.dateTime ≤ parseISO b.dateTime) := by
  refine ⟨rfl, ?_, ?_⟩
  · intro hn s hs hplanned
    have hall := List.find?_eq_none.mp hn
    have hmem : s ∈ sortedStops parseISO st :=
      (stopsSort_mem parseISO st.stops s).mpr hs
    exact hall s hmem (by simp [hplanned])
  · intro s hfind
    have hmem : s ∈ sortedStops parseISO st :=
      List.mem_of_find?_eq_some hfind
    have hp := List.find?_some hfind
    refine ⟨(stopsSort_mem parseISO st.stops s).mp hmem,
      of_decide_eq_true hp, ?_⟩
    intro b hb hbp
    exact find?_min_of_sorted parseISO _ (sortedStops parseISO st)
      (stopsSort_sorted parseISO st.stops) s hfind b
      ((stopsSort_mem parseISO st.stops b).mpr hb) (by simp [hbp])

/-- C7 witness: in the concrete three-stop state the planned stop is
selected, its status is planned, and its timestamp is at most that of
the other planned candidates. -/
theorem nextStop_none_or_earliest_planned_witness :
    exStopPlanned.status = Status.planned
    ∧ parseLen exStopPlanned.dateTime ≤ parseLen exStopPlanned2.dateTime :=
  ⟨((nextStop_none_or_earliest_planned parseLen exState).2.2
      exStopPlanned rfl).2.1,
   ((nextStop_none_or_earliest_planned parseLen exState).2.2
      exStopPlanned rfl).2.2 exStopPlanned2 (by decide) rfl⟩

/-- C8: after any sequence of add calls starting from the empty
collection, reading the collection back via `sortedStops` yields a
list that is non-decreasing in the `dateTime` timestamp, and for every
timestamp the stops carrying it appear in their pre-sort relative
order (the sort is stable). -/
theorem add_sequence_sorted_nondecreasing_stable
    (parseISO : String → Int) (env : Env) (inputs : List FormInput) :
    List.Sorted (stopLE parseISO)
        (sortedStops parseISO (applyAdds parseISO env inputs))
    ∧ ∀ k : Int,
        (sortedStops parseISO (applyAdds parseISO env inputs)).filter
            (fun s => decide (parseISO s.dateTime = k))
          = (applyAdds parseISO env inputs).stops.filter
              (fun s => decide (parseISO s.dateTime = k)) :=
  ⟨stopsSort_sorted parseISO _, fun k => stopsSort_filter_key parseISO k _⟩

/-- C9: `totalCost` is the sum of the `cost` field over every stop of
the collection regardless of status (an absent cost counting as 0),
and its value is unchanged by any `toggleStatus` call, with or without
an explicit target. -/
theorem totalCost_sums_all_and_status_invariant
    (st : AppState) (env : Env) (id : String) (force : Option Status)
    (res : RemoteResult) :
    totalCost st = (st.stops.map (fun s => s.cost.getD 0)).sum
    ∧ totalCost (toggleStatus env id force st res).1 = totalCost st := by
  have hsum : ∀ st' : AppState,
      totalCost st' = (st'.stops.map (fun s => s.cost.getD 0)).sum := by
    intro st'
    unfold totalCost
    rw [foldl_cost_eq_sum]
    omega
  refine ⟨hsum st, ?_⟩
  rw [hsum, hsum]
  have hst : (toggleStatus env id force st res).1.stops
      = st.stops.map (toggleStop id force) := by
    rw [show toggleStatus env id force st res
        = syncData env (st.stops.map (toggleStop id force)) res from rfl,
      syncData_state]
  rw [hst, List.map_map]
  congr 1
  exact List.map_congr_left (fun s _ => by
    simp [Function.comp, toggleStop_cost])

/-- C10: when online with no cache entry, any call outcome whose
response text parses as JSON — whatever its shape, the empty object
included — is returned as the insight and written permanently to the
insight cache keyed by the stop id, with no shape validation; the
heuristic fallback occurs exactly when the call rejects or the
response text fails to parse. -/
theorem online_insight_accepts_any_parsed_json
    (jsonParse : String → Option Json) (cache : String → Option Json)
    (stop : Stop) (h : cache ("ai_cache_" ++ stop.id) = none) :
    (∀ text j, jsonParse (responseRaw text) = some j →
        fetchAiInsights jsonParse cache true stop (AiCall.success text)
          = (j, some ("ai_cache_" ++ stop.id, j)))
    ∧ (∀ text, jsonParse (responseRaw text) = none →
        fetchAiInsights jsonParse cache true stop (AiCall.success text)
          = (getSmartFallback stop.title, none))
    ∧ fetchAiInsights jsonParse cache true stop AiCall.failure
        = (getSmartFallback stop.title, none) := by
  refine ⟨?_, ?_, ?_⟩
  · intro text j hj
    simp [fetchAiInsights, h, hj]
  · intro text hj
    simp [fetchAiInsights, h, hj]
  · simp [fetchAiInsights, h]

/-- C10 witness: a concrete online resolution whose response text is
absent parses the default empty-object text, and the empty object —
missing all four fields — is accepted and written to the cache. -/
theorem online_insight_accepts_any_parsed_json_witness :
    fetchAiInsights jsonParseEmpty noCache true exStopPlanned
        (AiCall.success none)
      = (Json.obj [], some ("ai_cache_" ++ exStopPlanned.id, Json.obj [])) :=
  (online_insight_accepts_any_parsed_json jsonParseEmpty noCache
    exStopPlanned rfl).1 none (Json.obj []) rfl

end KitaTour
